import Mathlib

/-!
Verification of the Tool-Invocation Orchestration Bridge of the
mcp-ia-example repository, as a shallow embedding in Lean 4.

The embedding mirrors three source files:
* src/backend/services/mcp-client.ts   (MCPClientService)
* src/backend/services/chat.ts         (ChatService)
* src/backend/services/conversation.ts (ConversationManager)

Stateful code is embedded as explicit state passing: the MCP client is a
step function on an explicit state record driven by events (subprocess
exit, scheduled-reconnect timer firing, external connect call); the
conversation store is a list of conversations with JavaScript Map
semantics (keys unique, insertion order preserved, set replaces in
place); the chat service is a pure function of the outcomes of its
external calls (OpenAI requests and MCP tool calls), which are supplied
as explicit oracle inputs.  Timestamps (ISO strings compared through
Date.getTime in the source) are embedded as natural numbers.
-/

namespace MCPClient

/-- Maximum number of reconnection attempts
(field maxReconnectAttempts of MCPClientService, value 3). -/
def maxReconnectAttempts : Nat := 3

/-- The mutable fields of MCPClientService that the claims are about.
isConnected and reconnectAttempts mirror the fields of the same names;
clientSome mirrors whether the field client is non-null;
pending mirrors whether a setTimeout reconnect callback is outstanding
(the serialized event model keeps at most one outstanding timer). -/
structure MCPState where
  isConnected : Bool
  clientSome : Bool
  reconnectAttempts : Nat
  pending : Bool
  deriving DecidableEq

/-- The events that drive the MCPClientService state: a subprocess exit
with a given code, the scheduled reconnect timer firing (carrying
whether the inner connect() call succeeds), and an external connect()
call (carrying whether it succeeds). -/
inductive MCPEvent where
  | exitEvent (code : Int)
  | runReconnect (connectOk : Bool)
  | extConnect (ok : Bool)
  deriving DecidableEq

/-- Embedding of connect() (mcp-client.ts lines 35-95): the Client
object is constructed before the transport connect, so client is
non-null afterwards even on failure; on success isConnected is set and
reconnectAttempts is reset to zero; on failure isConnected is false and
the error is rethrown (the counter is not touched). -/
def connectStep (s : MCPState) (ok : Bool) : MCPState :=
  let s := { s with clientSome := true }
  if ok then { s with isConnected := true, reconnectAttempts := 0 }
  else { s with isConnected := false }

/-- Embedding of disconnect() (mcp-client.ts lines 121-147): closes and
clears the client, kills the subprocess and clears isConnected. -/
def disconnectStep (s : MCPState) : MCPState :=
  { s with clientSome := false, isConnected := false }

/-- One step of the MCPClientService event system.
exitEvent mirrors the exit handler (lines 54-63): isConnected is
cleared and a reconnect is scheduled only when the code is nonzero and
reconnectAttempts is below the bound.  runReconnect mirrors
reconnect() (lines 100-116): the counter is incremented, then
disconnect() and connect() run; on connect failure a retry is scheduled
only while the incremented counter is below the bound.  extConnect
mirrors an external connect() call. -/
def mcpStep (s : MCPState) (e : MCPEvent) : MCPState :=
  match e with
  | .exitEvent code =>
      let s := { s with isConnected := false }
      if code ≠ 0 ∧ s.reconnectAttempts < maxReconnectAttempts then
        { s with pending := true }
      else s
  | .runReconnect connectOk =>
      if s.pending then
        let s := { s with pending := false,
                          reconnectAttempts := s.reconnectAttempts + 1 }
        let s := disconnectStep s
        let s := connectStep s connectOk
        if connectOk then s
        else if s.reconnectAttempts < maxReconnectAttempts then
          { s with pending := true }
        else s
      else s
  | .extConnect ok => connectStep s ok

/-- Run a list of events from a state. -/
def runTrace (s : MCPState) (es : List MCPEvent) : MCPState :=
  es.foldl mcpStep s

/-- The state right after a successful connect: connected, client
present, counter zero, no reconnect scheduled. -/
def readyState : MCPState :=
  { isConnected := true, clientSome := true, reconnectAttempts := 0, pending := false }

/-- Embedding of isClientConnected() (mcp-client.ts lines 152-154). -/
def isClientConnected (s : MCPState) : Bool :=
  s.isConnected && s.clientSome

end MCPClient

namespace MCPClient

/-- Raw tool descriptor as returned by the worker over the protocol. -/
structure RawTool where
  name : String
  title : Option String
  description : String
  inputSchema : String
  deriving DecidableEq

/-- Tool descriptor shape produced by listTools. -/
structure MCPTool where
  name : String
  title : String
  description : String
  inputSchema : String
  deriving DecidableEq

/-- Raw resource descriptor as returned by the worker. -/
structure RawResource where
  uri : String
  name : String
  description : Option String
  mimeType : Option String
  deriving DecidableEq

/-- Raw prompt descriptor as returned by the worker. -/
structure RawPrompt where
  name : String
  title : Option String
  description : String
  deriving DecidableEq

/-- Prompt descriptor shape produced by listPrompts. -/
structure MCPPrompt where
  name : String
  title : String
  description : String
  deriving DecidableEq

/-- Result payload of a tool call: the content items (text parts), when
the response carries a content field. -/
structure MCPResult where
  content : Option (List String)
  deriving DecidableEq

/-- Embedding of listTools (mcp-client.ts lines 159-177).  The worker
round trip is an oracle; the Bool of the result records whether the
round trip was performed.  The title mapping mirrors
(tool.title or tool.name) with JavaScript falsiness of the empty
string. -/
def listToolsOp (s : MCPState) (rpc : Unit → Except String (List RawTool)) :
    Except String (List MCPTool) × Bool :=
  if isClientConnected s then
    match rpc () with
    | .ok response =>
        (.ok (response.map (fun t =>
          { name := t.name
            title := match t.title with
              | some tt => if tt.isEmpty then t.name else tt
              | none => t.name
            description := t.description
            inputSchema := t.inputSchema })), true)
    | .error e => (.error ("Error getting tools: " ++ e), true)
  else (.error "MCP client not connected", false)

/-- Embedding of listResources (mcp-client.ts lines 182-200). -/
def listResourcesOp (s : MCPState) (rpc : Unit → Except String (List RawResource)) :
    Except String (List RawResource) × Bool :=
  if isClientConnected s then
    match rpc () with
    | .ok response => (.ok response, true)
    | .error e => (.error ("Error getting resources: " ++ e), true)
  else (.error "MCP client not connected", false)

/-- Embedding of listPrompts (mcp-client.ts lines 205-223). -/
def listPromptsOp (s : MCPState) (rpc : Unit → Except String (List RawPrompt)) :
    Except String (List MCPPrompt) × Bool :=
  if isClientConnected s then
    match rpc () with
    | .ok response =>
        (.ok (response.map (fun p =>
          { name := p.name
            title := match p.title with
              | some tt => if tt.isEmpty then p.name else tt
              | none => p.name
            description := p.description })), true)
    | .error e => (.error ("Error getting prompts: " ++ e), true)
  else (.error "MCP client not connected", false)

/-- Embedding of callTool (mcp-client.ts lines 228-247). -/
def callToolOp (s : MCPState) (name : String) (rpc : Unit → Except String MCPResult) :
    Except String MCPResult × Bool :=
  if isClientConnected s then
    match rpc () with
    | .ok response => (.ok response, true)
    | .error e => (.error ("Error executing " ++ name ++ ": " ++ e), true)
  else (.error "MCP client not connected", false)

/-- Embedding of readResource (mcp-client.ts lines 252-268). -/
def readResourceOp (s : MCPState) (rpc : Unit → Except String String) :
    Except String String × Bool :=
  if isClientConnected s then
    match rpc () with
    | .ok response => (.ok response, true)
    | .error e => (.error ("Error reading resource: " ++ e), true)
  else (.error "MCP client not connected", false)

/-- Embedding of getPrompt (mcp-client.ts lines 273-292). -/
def getPromptOp (s : MCPState) (rpc : Unit → Except String String) :
    Except String String × Bool :=
  if isClientConnected s then
    match rpc () with
    | .ok response => (.ok response, true)
    | .error e => (.error ("Error getting prompt: " ++ e), true)
  else (.error "MCP client not connected", false)

/-- A run of maxReconnectAttempts + 1 = 4 consecutive abnormal worker
exits: the first kills the ready connection, and each of the three
scheduled reconnection attempts fails, its replacement worker exiting
abnormally as well. -/
def failCascade : List MCPEvent :=
  [.exitEvent 1, .runReconnect false, .exitEvent 1, .runReconnect false,
   .exitEvent 1, .runReconnect false, .exitEvent 1]

/-- The terminal state after reconnection attempts are exhausted: not
connected, counter at the bound, no reconnect scheduled. -/
def failedState : MCPState :=
  { isConnected := false, clientSome := true,
    reconnectAttempts := maxReconnectAttempts, pending := false }

end MCPClient

namespace Shared

/-- Embedding of the shared ChatMessage type (shared/types.ts lines
10-20); the optional metadata object is flattened into its fields and
the ISO timestamp is embedded as a number. -/
structure ChatMessage where
  id : String
  role : String
  content : String
  timestamp : Nat
  metadataMcpTool : Option String
  metadataError : Option Bool
  deriving DecidableEq

end Shared

namespace ChatService

/-- A tool call proposed by intent classification: name plus the
arguments object (opaque to the orchestrator, embedded as a string). -/
structure SuggestedTool where
  name : String
  arguments : String
  deriving DecidableEq

/-- Embedding of the shared MCPAction audit record (shared/types.ts). -/
structure MCPAction where
  type : String
  name : String
  arguments : String
  result : Option MCPClient.MCPResult
  error : Option String
  deriving DecidableEq

/-- Embedding of the shared ChatResponse type (shared/types.ts). -/
structure ChatResponse where
  message : Shared.ChatMessage
  conversationId : String
  mcpActions : List MCPAction
  deriving DecidableEq

/-- The decision object of intent classification after the defaulting
coercions at the end of analyzeUserIntention. -/
structure IntentionAnalysis where
  needsMCPTools : Bool
  suggestedTools : List SuggestedTool
  category : String
  deriving DecidableEq

/-- A parsed JSON decision object before the defaulting coercions:
each field may be absent. -/
structure AnalysisJson where
  needsMCPTools : Option Bool
  suggestedTools : Option (List SuggestedTool)
  category : Option String
  deriving DecidableEq

def leftBrace : Char := Char.ofNat 123

def rightBrace : Char := Char.ofNat 125

/-- Embedding of the fallback regex match (chat.ts line 187): the
pattern is greedy with dot-matches-newline, so it matches from the
first left brace to the last right brace when the latter comes after
the former, and fails otherwise. -/
def extractJsonFragment (s : String) : Option String :=
  let cs := s.toList
  match cs.findIdx? (fun ch => ch = leftBrace),
        cs.reverse.findIdx? (fun ch => ch = rightBrace) with
  | some i, some jr =>
      let j := cs.length - 1 - jr
      if i < j then some (String.mk ((cs.drop i).take (j - i + 1))) else none
  | _, _ => none

/-- The parsed form of the hard-coded fallback decision literal
(chat.ts lines 194 and 197). -/
def defaultAnalysisJson : AnalysisJson :=
  { needsMCPTools := some false, suggestedTools := some [], category := some "general" }

/-- Embedding of the defaulting coercions at the end of
analyzeUserIntention (chat.ts lines 201-205), with JavaScript
falsiness: a missing or false needsMCPTools becomes false, a missing
suggestedTools becomes the empty list, a missing or empty category
becomes general. -/
def normalizeAnalysis (a : AnalysisJson) : IntentionAnalysis :=
  { needsMCPTools := a.needsMCPTools.getD false
    suggestedTools := a.suggestedTools.getD []
    category := match a.category with
      | some c => if c.isEmpty then "general" else c
      | none => "general" }

/-- Embedding of analyzeUserIntention (chat.ts lines 121-215).  The
listTools call and the classification model call are oracles
(toolsOutcome, modelOutcome); JSON.parse is an oracle jsonParse since
its semantics lives outside the program.  A null or whitespace model
response falls back to the empty-object text; strict parse failure
falls back to the extracted brace-delimited fragment; any remaining
failure, or a thrown error from listTools or the model call, yields
the default decision. -/
def analyzeUserIntention (toolsOutcome : Except String (List String))
    (modelOutcome : Except String String)
    (jsonParse : String → Option AnalysisJson) : IntentionAnalysis :=
  match toolsOutcome, modelOutcome with
  | .ok _, .ok raw =>
      let responseContent := if raw.trim.isEmpty then "\x7b\x7d" else raw.trim
      let analysis :=
        match jsonParse responseContent with
        | some a => a
        | none =>
            match extractJsonFragment responseContent with
            | some frag =>
                match jsonParse frag with
                | some a => a
                | none => defaultAnalysisJson
            | none => defaultAnalysisJson
      normalizeAnalysis analysis
  | _, _ => { needsMCPTools := false, suggestedTools := [], category := "general" }

/-- Embedding of the loop body sequence of executeMCPTools (chat.ts
lines 220-265), recursing over the proposed calls with their position
i; callTool is the oracle giving the outcome of the i-th call.  On
success an action carrying the result is recorded and the content
items are appended to the results text; on failure an action carrying
the error is recorded, the error text is appended, and the loop
continues with the next call. -/
def executeMCPToolsAux (callTool : Nat → Except String MCPClient.MCPResult)
    (i : Nat) : List SuggestedTool → String × List MCPAction
  | [] => ("", [])
  | tool :: rest =>
      match callTool i with
      | .ok result =>
          let action : MCPAction :=
            { type := "tool_call", name := tool.name, arguments := tool.arguments,
              result := some result, error := none }
          let chunk :=
            match result.content with
            | some items =>
                "\n=== Result from " ++ tool.name ++ " ===\n" ++
                  String.intercalate "\n" items ++ "\n"
            | none => ""
          let restRun := executeMCPToolsAux callTool (i + 1) rest
          (chunk ++ restRun.1, action :: restRun.2)
      | .error e =>
          let action : MCPAction :=
            { type := "tool_call", name := tool.name, arguments := tool.arguments,
              result := none, error := some e }
          let chunk := "\n=== Error in " ++ tool.name ++ " ===\n" ++ e ++ "\n"
          let restRun := executeMCPToolsAux callTool (i + 1) rest
          (chunk ++ restRun.1, action :: restRun.2)

/-- Embedding of executeMCPTools: run the loop from the first call. -/
def executeMCPTools (callTool : Nat → Except String MCPClient.MCPResult)
    (suggestedTools : List SuggestedTool) : String × List MCPAction :=
  executeMCPToolsAux callTool 0 suggestedTools

/-- Embedding of buildSystemPrompt (chat.ts lines 270-291): a fixed
instruction template, with the tool-results block appended exactly when
mcpResults is nonempty; the static template text is abbreviated to its
first sentence since no claim depends on it. -/
def buildSystemPrompt (mcpResults : String) : String :=
  "You are an intelligent assistant that can use MCP (Model Context Protocol) tools to help users." ++
    (if mcpResults.isEmpty then "" else "TOOL RESULTS:\n" ++ mcpResults)

/-- Embedding of String.prototype.includes: substring containment. -/
def strContains (s pat : String) : Bool :=
  decide (List.IsInfix pat.toList s.toList)

/-- Embedding of generateOpenAIResponse (chat.ts lines 296-339).  The
OpenAI call is the oracle outcome; an empty (null) content falls back
to the canned sorry text; a thrown error is rewrapped, with the API-key
special case, and rethrown. -/
def generateOpenAIResponse (outcome : Except String String)
    (_userMessage _systemPrompt _mcpResults : String) : Except String String :=
  match outcome with
  | .ok content =>
      .ok (if content.isEmpty then "Sorry, I could not generate a response." else content)
  | .error e =>
      if strContains e "API key" then
        .error "OpenAI authentication error. Check your API key."
      else .error ("Error generating response: " ++ e)

/-- The outcomes of all external calls a single processMessage turn can
make, together with the fresh identifiers and the clock reading it
draws. -/
structure ChatEnv where
  toolsOutcome : Except String (List String)
  classifyOutcome : Except String String
  jsonParse : String → Option AnalysisJson
  callTool : Nat → Except String MCPClient.MCPResult
  openaiOutcome : Except String String
  freshConversationId : String
  freshMessageId : String
  now : Nat

/-- Embedding of processMessage (chat.ts lines 45-116).  A missing or
empty conversationId is replaced by a fresh one; intent analysis never
throws; tools run only when the decision asks for them and proposes at
least one call; the response-synthesis call is the only fallible step
inside the try block, and its failure is caught and turned into the
apologetic assistant message with the error metadata flag, returned
with the same conversationId and the actions recorded so far. -/
def processMessage (env : ChatEnv) (userMessage : String)
    (conversationId : Option String) : ChatResponse :=
  let newConversationId :=
    match conversationId with
    | some cid => if cid.isEmpty then env.freshConversationId else cid
    | none => env.freshConversationId
  let intention := analyzeUserIntention env.toolsOutcome env.classifyOutcome env.jsonParse
  let toolRun :=
    if intention.needsMCPTools ∧ intention.suggestedTools ≠ [] then
      executeMCPTools env.callTool intention.suggestedTools
    else ("", [])
  match generateOpenAIResponse env.openaiOutcome userMessage
      (buildSystemPrompt toolRun.1) toolRun.1 with
  | .ok assistantResponse =>
      { message := { id := env.freshMessageId, role := "assistant",
                     content := assistantResponse, timestamp := env.now,
                     metadataMcpTool := match toolRun.2 with
                       | a :: _ => some a.name
                       | [] => none,
                     metadataError := none }
        conversationId := newConversationId
        mcpActions := toolRun.2 }
  | .error e =>
      { message := { id := env.freshMessageId, role := "assistant",
                     content := "Sorry, an error occurred processing your message: " ++ e,
                     timestamp := env.now,
                     metadataMcpTool := none, metadataError := some true }
        conversationId := newConversationId
        mcpActions := toolRun.2 }

end ChatService

namespace Conversation

/-- Conversation ceiling (field maxConversations, value 100). -/
def maxConversations : Nat := 100

/-- Per-conversation message ceiling (field maxMessagesPerConversation,
value 50). -/
def maxMessagesPerConversation : Nat := 50

/-- Age-sweep threshold in milliseconds (conversation.ts line 192). -/
def maxAgeMs : Nat := 24 * 60 * 60 * 1000

/-- Active-conversation window in milliseconds (conversation.ts
line 237). -/
def activeThresholdMs : Nat := 60 * 60 * 1000

/-- Embedding of ConversationContext (shared/types.ts): id, ordered
message history, creation and last-activity times (ISO strings embedded
as numbers).  The cached mcpState catalog snapshot is omitted: no claim
mentions it and no store operation other than updateMCPState reads it. -/
structure ConversationContext where
  id : String
  messages : List Shared.ChatMessage
  createdAt : Nat
  lastActivity : Nat
  deriving DecidableEq

/-- The conversations field: a JavaScript Map embedded as a list of
conversations in insertion order with unique ids.  Map.get: the entry
with the given key. -/
def mapGet : List ConversationContext → String → Option ConversationContext
  | [], _ => none
  | c :: rest, cid => if c.id = cid then some c else mapGet rest cid

/-- Map.set: replace the entry with the same key in place, or append a
new entry at the end. -/
def mapSet : List ConversationContext → ConversationContext → List ConversationContext
  | [], c => [c]
  | d :: rest, c => if d.id = c.id then c :: rest else d :: mapSet rest c

/-- Embedding of cleanupOldConversations (conversation.ts lines
190-222).  Pass one deletes every conversation whose age exceeds
maxAgeMs while iterating the map, i.e. filters them out.  If the store
is still over the ceiling, pass two sorts the remaining conversations
by lastActivity ascending and deletes the first size - maxConversations
keys; deleting a set of keys from a Map (whose keys are unique) is
embedded as filtering those keys out. -/
def cleanupOldConversations (store : List ConversationContext) (now : Nat) :
    List ConversationContext :=
  let afterAge := store.filter (fun conv => !(decide (maxAgeMs < now - conv.lastActivity)))
  if afterAge.length > maxConversations then
    let sorted := List.insertionSort
      (fun a b => a.lastActivity ≤ b.lastActivity) afterAge
    let toDelete := sorted.take (sorted.length - maxConversations)
    afterAge.filter (fun conv => !(toDelete.any (fun d => d.id == conv.id)))
  else afterAge

/-- Embedding of the creation branch of getOrCreateConversation
(conversation.ts lines 44-66): build the conversation under the given
id with empty history, insert it, and run the cleanup when the store
exceeds the ceiling.  Returns the new conversation and the store. -/
def createConv (store : List ConversationContext) (newId : String) (now : Nat) :
    ConversationContext × List ConversationContext :=
  let conversation : ConversationContext :=
    { id := newId, messages := [], createdAt := now, lastActivity := now }
  let store₁ := mapSet store conversation
  let store₂ := if store₁.length > maxConversations
    then cleanupOldConversations store₁ now else store₁
  (conversation, store₂)

/-- Embedding of getOrCreateConversation (conversation.ts lines 37-67).
A supplied non-empty id that is present refreshes lastActivity and
returns the stored conversation; otherwise a conversation is created
under the supplied id, or under a fresh id when none was supplied
(JavaScript falsiness: the empty string counts as no id). -/
def getOrCreateConversation (store : List ConversationContext)
    (conversationId : Option String) (freshId : String) (now : Nat) :
    ConversationContext × List ConversationContext :=
  match conversationId with
  | some cid =>
      if cid.isEmpty then createConv store freshId now
      else
        match mapGet store cid with
        | some conversation =>
            let conversation' := { conversation with lastActivity := now }
            (conversation', mapSet store conversation')
        | none => createConv store cid now
  | none => createConv store freshId now

/-- Embedding of getConversation (conversation.ts lines 72-80): a read
that refreshes lastActivity of the found conversation as a side
effect. -/
def getConversation (store : List ConversationContext) (conversationId : String)
    (now : Nat) : Option ConversationContext × List ConversationContext :=
  match mapGet store conversationId with
  | some conversation =>
      let conversation' := { conversation with lastActivity := now }
      (some conversation', mapSet store conversation')
  | none => (none, store)

/-- Embedding of updateConversation (conversation.ts lines 85-100):
get or create the conversation, push the message, truncate the history
to the most recent maxMessagesPerConversation entries when over the
ceiling, refresh lastActivity.  The source mutates the conversation
object in place, which reaches the map only while the map still holds
that object, hence the final presence check. -/
def updateConversation (store : List ConversationContext) (conversationId : String)
    (message : Shared.ChatMessage) (freshId : String) (now : Nat) :
    List ConversationContext :=
  let res := getOrCreateConversation store (some conversationId) freshId now
  let conversation := res.1
  let store₁ := res.2
  let msgs := conversation.messages ++ [message]
  let msgs₂ := if msgs.length > maxMessagesPerConversation
    then msgs.drop (msgs.length - maxMessagesPerConversation) else msgs
  let conversation₂ := { conversation with messages := msgs₂, lastActivity := now }
  match mapGet store₁ conversation.id with
  | some _ => mapSet store₁ conversation₂
  | none => store₁

/-- Embedding of addMessages (conversation.ts lines 105-109): repeated
updateConversation. -/
def addMessages (store : List ConversationContext) (conversationId : String)
    (messages : List Shared.ChatMessage) (freshId : String) (now : Nat) :
    List ConversationContext :=
  messages.foldl (fun st m => updateConversation st conversationId m freshId now) store

/-- Embedding of deleteConversation (conversation.ts lines 133-141):
Map.delete, returning whether the id was present. -/
def deleteConversation (store : List ConversationContext) (conversationId : String) :
    Bool × List ConversationContext :=
  ((mapGet store conversationId).isSome,
   store.filter (fun c => !(c.id == conversationId)))

/-- Embedding of listConversations (conversation.ts lines 146-149):
all conversations sorted by lastActivity descending. -/
def listConversations (store : List ConversationContext) : List ConversationContext :=
  List.insertionSort (fun a b => b.lastActivity ≤ a.lastActivity) store

/-- The aggregate statistics of getStats (conversation.ts lines
227-270), restricted to the fields the claims mention. -/
structure ConversationStats where
  totalConversations : Nat
  totalMessages : Nat
  activeConversations : Nat
  deriving DecidableEq

/-- Embedding of getStats: totals plus the count of conversations
active within the last hour. -/
def getStats (store : List ConversationContext) (now : Nat) : ConversationStats :=
  { totalConversations := store.length
    totalMessages := (store.map (fun c => c.messages.length)).sum
    activeConversations :=
      (store.filter (fun conv => decide (now - conv.lastActivity < activeThresholdMs))).length }

/-- The per-conversation cap invariant: every conversation in the store
holds at most maxMessagesPerConversation messages. -/
def storeInv (store : List ConversationContext) : Prop :=
  ∀ c ∈ store, c.messages.length ≤ maxMessagesPerConversation

end Conversation

-- ===================== Theorems =====================

namespace MCPClient

/-- Helper: once the reconnect counter has reached the bound, with no
reconnect pending and the client disconnected, any event other than a
successful external connect leaves the manager disconnected, with no
reconnect pending and the counter still at or above the bound. -/
theorem exhausted_step (s : MCPState) (e : MCPEvent)
    (ha : maxReconnectAttempts ≤ s.reconnectAttempts) (hp : s.pending = false)
    (hc : s.isConnected = false) (he : e ≠ MCPEvent.extConnect true) :
    maxReconnectAttempts ≤ (mcpStep s e).reconnectAttempts ∧
      (mcpStep s e).pending = false ∧ (mcpStep s e).isConnected = false := by
  obtain ⟨c, cs, a, p⟩ := s
  simp only at ha hp hc
  subst hp; subst hc
  cases e with
  | exitEvent code =>
      have hcond : ¬ (code ≠ 0 ∧ a < maxReconnectAttempts) := by
        rintro ⟨-, h⟩
        simp only [maxReconnectAttempts] at h ha
        omega
      simpa [mcpStep, hcond] using ha
  | runReconnect ok =>
      simpa [mcpStep] using ha
  | extConnect ok =>
      cases ok with
      | true => exact absurd rfl he
      | false => simpa [mcpStep, connectStep] using ha

/-- Helper: the previous fact extended over a whole trace of events. -/
theorem exhausted_trace (s : MCPState) (es : List MCPEvent)
    (ha : maxReconnectAttempts ≤ s.reconnectAttempts) (hp : s.pending = false)
    (hc : s.isConnected = false) (he : ∀ e ∈ es, e ≠ MCPEvent.extConnect true) :
    maxReconnectAttempts ≤ (runTrace s es).reconnectAttempts ∧
      (runTrace s es).pending = false ∧ (runTrace s es).isConnected = false := by
  induction es generalizing s with
  | nil => exact ⟨ha, hp, hc⟩
  | cons e rest ih =>
      have h₁ := exhausted_step s e ha hp hc (he e (List.mem_cons_self e rest))
      exact ih (mcpStep s e) h₁.1 h₁.2.1 h₁.2.2
        (fun x hx => he x (List.mem_cons_of_mem e hx))

/-- C1: reconnection is bounded by maxReconnectAttempts = 3: a failed
reconnection attempt increments the counter; a successful one resets it
to zero and returns the manager to the ready (connected) state; once
the counter is at the bound and nothing is pending, no event other
than a successful external connect ever schedules another attempt or
reconnects, and after maxReconnectAttempts + 1 consecutive abnormal
exits (every reconnection attempt failing) the manager is in the
terminal failed, not-connected state, from which a successful external
connect returns it to ready with the counter reset. -/
theorem reconnection_bounded :
    (∀ s : MCPState, s.pending = true →
      (mcpStep s (.runReconnect false)).reconnectAttempts = s.reconnectAttempts + 1) ∧
    (∀ s : MCPState, s.pending = true →
      mcpStep s (.runReconnect true) = readyState) ∧
    (∀ (s : MCPState) (es : List MCPEvent),
      maxReconnectAttempts ≤ s.reconnectAttempts → s.pending = false →
      s.isConnected = false → (∀ e ∈ es, e ≠ MCPEvent.extConnect true) →
      (runTrace s es).pending = false ∧ (runTrace s es).isConnected = false) ∧
    runTrace readyState failCascade = failedState ∧
    isClientConnected failedState = false ∧
    mcpStep failedState (.extConnect true) = readyState := by
  refine ⟨?_, ?_, ?_, by decide, by decide, by decide⟩
  · intro s hp
    obtain ⟨c, cs, a, p⟩ := s
    simp only at hp
    subst hp
    simp [mcpStep, disconnectStep, connectStep]
    split <;> rfl
  · intro s hp
    obtain ⟨c, cs, a, p⟩ := s
    simp only at hp
    subst hp
    simp [mcpStep, disconnectStep, connectStep, readyState]
  · intro s es ha hp hc he
    exact ⟨(exhausted_trace s es ha hp hc he).2.1, (exhausted_trace s es ha hp hc he).2.2⟩

/-- Witness for C1 at concrete states: a pending failed attempt
increments the counter from 0 to 1; a pending successful attempt
returns to ready; from the failed state a further abnormal exit leaves
the manager unscheduled and disconnected. -/
theorem reconnection_bounded_witness :
    (mcpStep ⟨false, true, 0, true⟩ (.runReconnect false)).reconnectAttempts = 0 + 1 ∧
    mcpStep ⟨false, true, 1, true⟩ (.runReconnect true) = readyState ∧
    ((runTrace failedState [.exitEvent 1]).pending = false ∧
      (runTrace failedState [.exitEvent 1]).isConnected = false) :=
  ⟨reconnection_bounded.1 ⟨false, true, 0, true⟩ rfl,
   reconnection_bounded.2.1 ⟨false, true, 1, true⟩ rfl,
   reconnection_bounded.2.2.1 failedState [.exitEvent 1] (by decide) rfl rfl (by decide)⟩

/-- C7: an exit with code 0 only clears isConnected: it never schedules
a reconnection attempt, never touches the counter, and from the ready
state it leaves the manager plainly disconnected (counter at zero, not
reconnecting, not failed). -/
theorem graceful_exit_no_reconnect :
    (∀ s : MCPState, mcpStep s (.exitEvent 0) = { s with isConnected := false }) ∧
    mcpStep readyState (.exitEvent 0) =
      { isConnected := false, clientSome := true, reconnectAttempts := 0, pending := false } := by
  constructor
  · intro s
    have hcond : ¬ ((0 : Int) ≠ 0 ∧ s.reconnectAttempts < maxReconnectAttempts) := by
      rintro ⟨h, -⟩; exact h rfl
    simp only [mcpStep, if_neg hcond]
  · decide

/-- Witness for C7 at the ready state. -/
theorem graceful_exit_no_reconnect_witness :
    mcpStep readyState (.exitEvent 0) = { readyState with isConnected := false } :=
  graceful_exit_no_reconnect.1 readyState

/-- C6: every catalog or invocation operation invoked while the client
is not connected fails immediately with the not-connected error and
performs no round trip to the worker (the Bool component records
whether a round trip happened). -/
theorem not_connected_fails_fast :
    ∀ s : MCPState, isClientConnected s = false →
    (∀ rpc, listToolsOp s rpc = (.error "MCP client not connected", false)) ∧
    (∀ rpc, listResourcesOp s rpc = (.error "MCP client not connected", false)) ∧
    (∀ rpc, listPromptsOp s rpc = (.error "MCP client not connected", false)) ∧
    (∀ name rpc, callToolOp s name rpc = (.error "MCP client not connected", false)) ∧
    (∀ rpc, readResourceOp s rpc = (.error "MCP client not connected", false)) ∧
    (∀ rpc, getPromptOp s rpc = (.error "MCP client not connected", false)) := by
  intro s h
  refine ⟨fun rpc => ?_, fun rpc => ?_, fun rpc => ?_, fun name rpc => ?_,
    fun rpc => ?_, fun rpc => ?_⟩ <;>
    simp only [listToolsOp, listResourcesOp, listPromptsOp, callToolOp,
      readResourceOp, getPromptOp, h, Bool.false_eq_true, if_false]

/-- Witness for C6: in the state reached right after an abnormal exit
(the reconnecting phase), a concrete callTool and a concrete listTools
fail immediately with the not-connected error and no round trip. -/
theorem not_connected_fails_fast_witness :
    isClientConnected (runTrace readyState [.exitEvent 1]) = false ∧
    callToolOp (runTrace readyState [.exitEvent 1]) "calculator"
      (fun _ => .ok ⟨some ["45"]⟩) = (.error "MCP client not connected", false) ∧
    listToolsOp (runTrace readyState [.exitEvent 1]) (fun _ => .ok []) =
      (.error "MCP client not connected", false) :=
  ⟨by decide,
   (not_connected_fails_fast (runTrace readyState [.exitEvent 1]) (by decide)).2.2.2.1
     "calculator" (fun _ => .ok ⟨some ["45"]⟩),
   (not_connected_fails_fast (runTrace readyState [.exitEvent 1]) (by decide)).1
     (fun _ => .ok [])⟩

end MCPClient

namespace ChatService

/-- Helper: the action list produced by the tool loop has one entry per
proposed call, in proposal order: the entry at position i is determined
by the i-th proposed call and the outcome of the i-th invocation. -/
theorem executeMCPToolsAux_getElem (callTool : Nat → Except String MCPClient.MCPResult) :
    ∀ (tools : List SuggestedTool) (k i : Nat),
      (executeMCPToolsAux callTool k tools).2[i]? =
        (tools[i]?).map (fun tool =>
          match callTool (k + i) with
          | .ok r => { type := "tool_call", name := tool.name,
                       arguments := tool.arguments, result := some r, error := none }
          | .error e => { type := "tool_call", name := tool.name,
                          arguments := tool.arguments, result := none, error := some e }) := by
  intro tools
  induction tools with
  | nil => intro k i; simp [executeMCPToolsAux]
  | cons tool rest ih =>
      intro k i
      cases i with
      | zero =>
          cases h : callTool k <;> simp [executeMCPToolsAux, h]
      | succ n =>
          have hkn : k + 1 + n = k + (n + 1) := by omega
          cases h : callTool k <;>
            simp [executeMCPToolsAux, h, ih (k + 1) n, hkn]

/-- Helper: the tool loop records exactly one action per proposed call. -/
theorem executeMCPToolsAux_length (callTool : Nat → Except String MCPClient.MCPResult) :
    ∀ (tools : List SuggestedTool) (k : Nat),
      (executeMCPToolsAux callTool k tools).2.length = tools.length := by
  intro tools
  induction tools with
  | nil => intro k; rfl
  | cons tool rest ih =>
      intro k
      cases h : callTool k <;> simp [executeMCPToolsAux, h, ih (k + 1)]

/-- C5: for every list of proposed tool calls, one action is recorded
per call, in proposal order; the action at position i carries the i-th
name and arguments and, when the i-th invocation throws, its error
field and no result — and the calls after a failing one are still
recorded the same way (the position-i characterization holds at every
position regardless of earlier outcomes); the turn itself still
returns an assistant message. -/
theorem tool_failure_does_not_abort :
    ∀ (callTool : Nat → Except String MCPClient.MCPResult) (tools : List SuggestedTool),
      (executeMCPTools callTool tools).2.length = tools.length ∧
      (∀ i, (executeMCPTools callTool tools).2[i]? =
        (tools[i]?).map (fun tool =>
          match callTool i with
          | .ok r => { type := "tool_call", name := tool.name,
                       arguments := tool.arguments, result := some r, error := none }
          | .error e => { type := "tool_call", name := tool.name,
                          arguments := tool.arguments, result := none, error := some e })) ∧
      (∀ (env : ChatEnv) (userMessage : String) (conversationId : Option String),
        (processMessage env userMessage conversationId).message.role = "assistant") := by
  intro callTool tools
  refine ⟨executeMCPToolsAux_length callTool tools 0, ?_, ?_⟩
  · intro i
    have h := executeMCPToolsAux_getElem callTool tools 0 i
    simpa [executeMCPTools] using h
  · intro env userMessage conversationId
    cases h : generateOpenAIResponse env.openaiOutcome userMessage
        (buildSystemPrompt (if (analyzeUserIntention env.toolsOutcome env.classifyOutcome
            env.jsonParse).needsMCPTools ∧
            (analyzeUserIntention env.toolsOutcome env.classifyOutcome
              env.jsonParse).suggestedTools ≠ [] then
          executeMCPTools env.callTool (analyzeUserIntention env.toolsOutcome
            env.classifyOutcome env.jsonParse).suggestedTools
        else ("", [])).1)
        (if (analyzeUserIntention env.toolsOutcome env.classifyOutcome
            env.jsonParse).needsMCPTools ∧
            (analyzeUserIntention env.toolsOutcome env.classifyOutcome
              env.jsonParse).suggestedTools ≠ [] then
          executeMCPTools env.callTool (analyzeUserIntention env.toolsOutcome
            env.classifyOutcome env.jsonParse).suggestedTools
        else ("", [])).1 <;>
      simp [processMessage, h]

/-- Witness for C5: two proposed calls where the first throws: both are
recorded in order, the first with its error and no result, the second
with its result and no error. -/
theorem tool_failure_does_not_abort_witness :
    (executeMCPTools (fun i => if i = 0 then .error "boom" else .ok ⟨some ["45"]⟩)
      [⟨"calculator", "a1"⟩, ⟨"get_weather", "a2"⟩]).2.length = 2 ∧
    (executeMCPTools (fun i => if i = 0 then .error "boom" else .ok ⟨some ["45"]⟩)
      [⟨"calculator", "a1"⟩, ⟨"get_weather", "a2"⟩]).2[0]? =
      some { type := "tool_call", name := "calculator", arguments := "a1",
             result := none, error := some "boom" } ∧
    (executeMCPTools (fun i => if i = 0 then .error "boom" else .ok ⟨some ["45"]⟩)
      [⟨"calculator", "a1"⟩, ⟨"get_weather", "a2"⟩]).2[1]? =
      some { type := "tool_call", name := "get_weather", arguments := "a2",
             result := some ⟨some ["45"]⟩, error := none } := by
  have h := tool_failure_does_not_abort
    (fun i => if i = 0 then .error "boom" else .ok ⟨some ["45"]⟩)
    [⟨"calculator", "a1"⟩, ⟨"get_weather", "a2"⟩]
  exact ⟨h.1, (h.2.1 0).trans rfl, (h.2.1 1).trans rfl⟩

end ChatService

namespace ChatService

/-- C2: processMessage is total and well-formed for every utterance,
optional conversation id and environment of external outcomes: the
returned message always has the assistant role, the returned
conversationId is the supplied one (or a fresh one when missing or
empty), and when the response-synthesis model call fails the turn
still completes with the locally generated apologetic message whose
metadata error flag is set, while a successful model call yields its
content with no error flag. -/
theorem processMessage_never_throws :
    ∀ (env : ChatEnv) (userMessage : String) (conversationId : Option String),
      (processMessage env userMessage conversationId).message.role = "assistant" ∧
      (processMessage env userMessage conversationId).conversationId =
        (match conversationId with
         | some cid => if cid.isEmpty then env.freshConversationId else cid
         | none => env.freshConversationId) ∧
      (∀ e, env.openaiOutcome = .error e →
        (processMessage env userMessage conversationId).message.metadataError = some true ∧
        ∃ msg, (processMessage env userMessage conversationId).message.content =
          "Sorry, an error occurred processing your message: " ++ msg) ∧
      (∀ c, env.openaiOutcome = .ok c → c.isEmpty = false →
        (processMessage env userMessage conversationId).message.content = c ∧
        (processMessage env userMessage conversationId).message.metadataError = none) := by
  intro env userMessage conversationId
  cases ho : env.openaiOutcome with
  | ok c =>
      refine ⟨?_, ?_, ?_, ?_⟩
      · simp [processMessage, generateOpenAIResponse, ho]
      · simp [processMessage, generateOpenAIResponse, ho]
      · rintro e he
        simp at he
      · rintro c2 hc2 hne
        injection hc2 with hcc
        subst hcc
        constructor
        · simp [processMessage, generateOpenAIResponse, ho, hne]
        · simp [processMessage, generateOpenAIResponse, ho]
  | error e =>
      by_cases hk : strContains e "API key" = true
      · refine ⟨?_, ?_, ?_, ?_⟩
        · simp [processMessage, generateOpenAIResponse, ho, hk]
        · simp [processMessage, generateOpenAIResponse, ho, hk]
        · rintro e2 he2
          refine ⟨by simp [processMessage, generateOpenAIResponse, ho, hk],
            ⟨"OpenAI authentication error. Check your API key.", ?_⟩⟩
          simp [processMessage, generateOpenAIResponse, ho, hk]
        · rintro c2 hc2 hne
          simp at hc2
      · refine ⟨?_, ?_, ?_, ?_⟩
        · simp [processMessage, generateOpenAIResponse, ho, hk]
        · simp [processMessage, generateOpenAIResponse, ho, hk]
        · rintro e2 he2
          refine ⟨by simp [processMessage, generateOpenAIResponse, ho, hk],
            ⟨"Error generating response: " ++ e, ?_⟩⟩
          simp [processMessage, generateOpenAIResponse, ho, hk]
        · rintro c2 hc2 hne
          simp at hc2

/-- Witness for C2: a turn whose response-synthesis call fails returns
the apologetic assistant message with the error metadata flag and the
supplied conversation id. -/
theorem processMessage_never_throws_witness :
    (processMessage { toolsOutcome := .ok [], classifyOutcome := .ok "",
                      jsonParse := (fun _ => none), callTool := (fun _ => .error "down"),
                      openaiOutcome := .error "boom", freshConversationId := "fresh-id",
                      freshMessageId := "m1", now := 5 }
        "hola" (some "conv-1")).message.metadataError = some true ∧
    (processMessage { toolsOutcome := .ok [], classifyOutcome := .ok "",
                      jsonParse := (fun _ => none), callTool := (fun _ => .error "down"),
                      openaiOutcome := .error "boom", freshConversationId := "fresh-id",
                      freshMessageId := "m1", now := 5 }
        "hola" (some "conv-1")).conversationId = "conv-1" := by
  have h := processMessage_never_throws
    { toolsOutcome := .ok [], classifyOutcome := .ok "",
      jsonParse := (fun _ => none), callTool := (fun _ => .error "down"),
      openaiOutcome := .error "boom", freshConversationId := "fresh-id",
      freshMessageId := "m1", now := 5 } "hola" (some "conv-1")
  exact ⟨(h.2.2.1 "boom" rfl).1, h.2.1.trans rfl⟩

/-- C8: intent-classification parsing is a best-effort pipeline: if the
classification model call (or the preceding listTools call) throws, or
the strict parse fails and no brace-delimited fragment can be extracted,
or the extracted fragment fails to parse too, the turn proceeds with the
default decision (no tools, no proposed calls, general category); if the
extracted fragment does parse, its normalized decision is used. -/
theorem classification_parse_fallback :
    ∀ (toolsOutcome : Except String (List String)) (modelOutcome : Except String String)
      (jsonParse : String → Option AnalysisJson),
      (∀ e, toolsOutcome = .error e →
        analyzeUserIntention toolsOutcome modelOutcome jsonParse =
          { needsMCPTools := false, suggestedTools := [], category := "general" }) ∧
      (∀ e, modelOutcome = .error e →
        analyzeUserIntention toolsOutcome modelOutcome jsonParse =
          { needsMCPTools := false, suggestedTools := [], category := "general" }) ∧
      (∀ tools raw, toolsOutcome = .ok tools → modelOutcome = .ok raw →
        jsonParse (if raw.trim.isEmpty then "\x7b\x7d" else raw.trim) = none →
        (extractJsonFragment (if raw.trim.isEmpty then "\x7b\x7d" else raw.trim) = none →
          analyzeUserIntention toolsOutcome modelOutcome jsonParse =
            { needsMCPTools := false, suggestedTools := [], category := "general" }) ∧
        (∀ frag,
          extractJsonFragment (if raw.trim.isEmpty then "\x7b\x7d" else raw.trim) = some frag →
          jsonParse frag = none →
          analyzeUserIntention toolsOutcome modelOutcome jsonParse =
            { needsMCPTools := false, suggestedTools := [], category := "general" }) ∧
        (∀ frag a,
          extractJsonFragment (if raw.trim.isEmpty then "\x7b\x7d" else raw.trim) = some frag →
          jsonParse frag = some a →
          analyzeUserIntention toolsOutcome modelOutcome jsonParse = normalizeAnalysis a)) := by
  intro toolsOutcome modelOutcome jsonParse
  refine ⟨?_, ?_, ?_⟩
  · rintro e rfl
    cases modelOutcome <;> rfl
  · rintro e rfl
    cases toolsOutcome <;> rfl
  · rintro tools raw rfl rfl hp
    refine ⟨?_, ?_, ?_⟩
    · intro hex
      simp [analyzeUserIntention, hp, hex, defaultAnalysisJson, normalizeAnalysis]
    · intro frag hfrag hpf
      simp [analyzeUserIntention, hp, hfrag, hpf, defaultAnalysisJson, normalizeAnalysis]
    · intro frag a hfrag hpa
      simp [analyzeUserIntention, hp, hfrag, hpa]

/-- Witness for C8: a failing classification model call yields the
default decision. -/
theorem classification_parse_fallback_witness :
    analyzeUserIntention (.ok []) (.error "timeout") (fun _ => none) =
      { needsMCPTools := false, suggestedTools := [], category := "general" } :=
  (classification_parse_fallback (.ok []) (.error "timeout")
      (fun _ => none)).2.1 "timeout" rfl

end ChatService

namespace Conversation

/-- Helper: a successful Map.get returns a stored entry with the
requested key. -/
theorem mapGet_some (store : List ConversationContext) (cid : String)
    (c : ConversationContext) (h : mapGet store cid = some c) :
    c ∈ store ∧ c.id = cid := by
  induction store with
  | nil => cases h
  | cons d rest ih =>
      by_cases hd : d.id = cid
      · simp only [mapGet, if_pos hd] at h
        injection h with h
        subst h
        exact ⟨List.mem_cons_self d rest, hd⟩
      · simp only [mapGet, if_neg hd] at h
        obtain ⟨h1, h2⟩ := ih h
        exact ⟨List.mem_cons_of_mem d h1, h2⟩

/-- Helper: Map.get after Map.set of the same key. -/
theorem mapGet_mapSet_self (store : List ConversationContext) (c : ConversationContext) :
    mapGet (mapSet store c) c.id = some c := by
  induction store with
  | nil => simp [mapSet, mapGet]
  | cons d rest ih =>
      by_cases hd : d.id = c.id
      · simp [mapSet, hd, mapGet]
      · simp [mapSet, hd, mapGet, ih]

/-- Helper: Map.get after Map.set of a different key. -/
theorem mapGet_mapSet_ne (store : List ConversationContext) (c : ConversationContext)
    (cid : String) (h : cid ≠ c.id) :
    mapGet (mapSet store c) cid = mapGet store cid := by
  have hcid : ¬ c.id = cid := fun hh => h hh.symm
  induction store with
  | nil => simp only [mapSet, mapGet, if_neg hcid]
  | cons d rest ih =>
      by_cases hd : d.id = c.id
      · have hd3 : ¬ d.id = cid := by rw [hd]; exact hcid
        simp only [mapSet, if_pos hd, mapGet, if_neg hcid, if_neg hd3]
      · by_cases hdc : d.id = cid
        · simp only [mapSet, if_neg hd, mapGet, if_pos hdc]
        · simp only [mapSet, if_neg hd, mapGet, if_neg hdc, ih]

/-- Helper: Map.set of a present key keeps the size. -/
theorem length_mapSet_present (store : List ConversationContext) (c : ConversationContext)
    (h : (mapGet store c.id).isSome) : (mapSet store c).length = store.length := by
  induction store with
  | nil => simp [mapGet] at h
  | cons d rest ih =>
      by_cases hd : d.id = c.id
      · simp [mapSet, hd]
      · simp only [mapGet, if_neg hd] at h
        simp [mapSet, hd, ih h]

/-- Helper: Map.set of an absent key appends at the end. -/
theorem mapSet_absent_append (store : List ConversationContext) (c : ConversationContext)
    (h : mapGet store c.id = none) : mapSet store c = store ++ [c] := by
  induction store with
  | nil => rfl
  | cons d rest ih =>
      by_cases hd : d.id = c.id
      · simp [mapGet, hd] at h
      · simp only [mapGet, if_neg hd] at h
        simp [mapSet, hd, ih h]

/-- Helper: entries after Map.set come from the store or are the new
entry. -/
theorem mem_mapSet (store : List ConversationContext) (c x : ConversationContext)
    (h : x ∈ mapSet store c) : x ∈ store ∨ x = c := by
  induction store with
  | nil => simp [mapSet] at h; exact .inr h
  | cons d rest ih =>
      by_cases hd : d.id = c.id
      · simp only [mapSet, if_pos hd] at h
        rcases List.mem_cons.mp h with h | h
        · exact .inr h
        · exact .inl (List.mem_cons_of_mem d h)
      · simp only [mapSet, if_neg hd] at h
        rcases List.mem_cons.mp h with h | h
        · exact .inl (h ▸ List.mem_cons_self d rest)
        · rcases ih h with h | h
          · exact .inl (List.mem_cons_of_mem d h)
          · exact .inr h

/-- Helper: a failed Map.get means no stored entry has the key. -/
theorem mapGet_eq_none (store : List ConversationContext) (cid : String)
    (h : mapGet store cid = none) : ∀ c ∈ store, c.id ≠ cid := by
  induction store with
  | nil => intro c hc; cases hc
  | cons d rest ih =>
      by_cases hd : d.id = cid
      · simp [mapGet, hd] at h
      · simp only [mapGet, if_neg hd] at h
        intro c hc
        rcases List.mem_cons.mp hc with rfl | hc
        · exact hd
        · exact ih h c hc

/-- Helper: Map.get finds a stored entry whose key is unique. -/
theorem mapGet_of_mem_unique (store : List ConversationContext) (c : ConversationContext)
    (hc : c ∈ store) (huniq : ∀ d ∈ store, d.id = c.id → d = c) :
    mapGet store c.id = some c := by
  induction store with
  | nil => cases hc
  | cons d rest ih =>
      by_cases hd : d.id = c.id
      · have : d = c := huniq d (List.mem_cons_self d rest) hd
        simp [mapGet, hd, this]
      · simp only [mapGet, if_neg hd]
        rcases List.mem_cons.mp hc with rfl | hc
        · exact absurd rfl hd
        · exact ih hc (fun x hx => huniq x (List.mem_cons_of_mem d hx))

/-- Helper: the sweep only removes conversations. -/
theorem mem_cleanup (store : List ConversationContext) (now : Nat)
    (x : ConversationContext) (h : x ∈ cleanupOldConversations store now) :
    x ∈ store := by
  simp only [cleanupOldConversations] at h
  split at h
  · exact (List.mem_filter.mp (List.mem_filter.mp h).1).1
  · exact (List.mem_filter.mp h).1

/-- Helper: entries after createConv come from the store or carry an
empty history. -/
theorem mem_createConv (store : List ConversationContext) (newId : String) (now : Nat)
    (x : ConversationContext) (h : x ∈ (createConv store newId now).2) :
    x ∈ store ∨ x.messages = [] := by
  unfold createConv at h
  dsimp only at h
  split at h
  · rcases mem_mapSet _ _ _ (mem_cleanup _ _ _ h) with h | rfl
    · exact .inl h
    · exact .inr rfl
  · rcases mem_mapSet _ _ _ h with h | rfl
    · exact .inl h
    · exact .inr rfl

/-- Helper: entries after getOrCreateConversation carry a history copied
from a stored conversation, or an empty one. -/
theorem mem_getOrCreate (store : List ConversationContext) (cid : Option String)
    (fid : String) (now : Nat) (x : ConversationContext)
    (h : x ∈ (getOrCreateConversation store cid fid now).2) :
    (∃ c ∈ store, x.messages = c.messages) ∨ x.messages = [] := by
  cases cid with
  | none =>
      simp only [getOrCreateConversation] at h
      rcases mem_createConv _ _ _ _ h with h | h
      · exact .inl ⟨x, h, rfl⟩
      · exact .inr h
  | some s =>
      simp only [getOrCreateConversation] at h
      by_cases hs : s.isEmpty = true
      · rw [if_pos hs] at h
        rcases mem_createConv _ _ _ _ h with h | h
        · exact .inl ⟨x, h, rfl⟩
        · exact .inr h
      · rw [if_neg hs] at h
        cases hm : mapGet store s with
        | some conversation =>
            rw [hm] at h
            dsimp only at h
            rcases mem_mapSet _ _ _ h with h | rfl
            · exact .inl ⟨x, h, rfl⟩
            · exact .inl ⟨conversation, (mapGet_some _ _ _ hm).1, rfl⟩
        | none =>
            rw [hm] at h
            rcases mem_createConv _ _ _ _ h with h | h
            · exact .inl ⟨x, h, rfl⟩
            · exact .inr h

/-- Helper: the truncated history respects the cap. -/
theorem trunc_length_le (l : List Shared.ChatMessage) :
    (if l.length > maxMessagesPerConversation
      then l.drop (l.length - maxMessagesPerConversation) else l).length ≤
      maxMessagesPerConversation := by
  split
  · rw [List.length_drop]; omega
  · omega

/-- Helper: entries after updateConversation come from
getOrCreateConversation or respect the cap. -/
theorem mem_updateConversation (store : List ConversationContext) (cid : String)
    (m : Shared.ChatMessage) (fid : String) (now : Nat) (x : ConversationContext)
    (h : x ∈ updateConversation store cid m fid now) :
    x ∈ (getOrCreateConversation store (some cid) fid now).2 ∨
      x.messages.length ≤ maxMessagesPerConversation := by
  unfold updateConversation at h
  dsimp only at h
  split at h
  · rcases mem_mapSet _ _ _ h with h | rfl
    · exact .inl h
    · exact .inr (trunc_length_le _)
  · exact .inl h

end Conversation

namespace Conversation

/-- Helper: the history truncation is unconditionally a drop to the
last maxMessagesPerConversation entries (the drop count is zero when
under the cap). -/
theorem trunc_eq_drop (l : List Shared.ChatMessage) :
    (if l.length > maxMessagesPerConversation
      then l.drop (l.length - maxMessagesPerConversation) else l) =
      l.drop (l.length - maxMessagesPerConversation) := by
  split
  · rfl
  · rw [Nat.sub_eq_zero_of_le (by omega), List.drop_zero]

/-- Helper: capping a capped-and-extended history agrees with capping
the extended history in one go. -/
theorem drop_cap_append {α : Type} (n : Nat) (l rest : List α) :
    ((l.drop (l.length - n)) ++ rest).drop
        (((l.drop (l.length - n)) ++ rest).length - n) =
      (l ++ rest).drop ((l ++ rest).length - n) := by
  rcases Nat.le_total l.length n with hle | hge
  · rw [Nat.sub_eq_zero_of_le hle, List.drop_zero]
  · have h1 : (l.drop (l.length - n)).length = n := by
      rw [List.length_drop]; omega
    have hsplit : l ++ rest = l.take (l.length - n) ++ (l.drop (l.length - n) ++ rest) := by
      rw [← List.append_assoc, List.take_append_drop]
    have h2 : (l.take (l.length - n)).length = l.length - n := by
      rw [List.length_take]; omega
    have h3 : (l.take (l.length - n) ++ (l.drop (l.length - n) ++ rest)).length - n =
        (l.take (l.length - n)).length + ((l.drop (l.length - n) ++ rest).length - n) := by
      simp only [List.length_append, h1, h2]
      omega
    conv_rhs => rw [hsplit, h3, List.drop_append]

/-- Helper: updateConversation on a present (non-empty) id replaces the
conversation by its refreshed, appended and capped version. -/
theorem updateConversation_present_eq (store : List ConversationContext) (cid : String)
    (c : ConversationContext) (m : Shared.ChatMessage) (fid : String) (now : Nat)
    (hne : cid.isEmpty = false) (hc : mapGet store cid = some c) :
    updateConversation store cid m fid now =
      mapSet (mapSet store { c with lastActivity := now })
        { c with
          messages := (c.messages ++ [m]).drop
            ((c.messages ++ [m]).length - maxMessagesPerConversation),
          lastActivity := now } := by
  have hne2 : ¬ cid.isEmpty = true := by rw [hne]; exact Bool.false_ne_true
  have hself : mapGet (mapSet store { c with lastActivity := now }) c.id =
      some { c with lastActivity := now } :=
    mapGet_mapSet_self store { c with lastActivity := now }
  simp only [updateConversation, getOrCreateConversation, if_neg hne2, hc, hself,
    trunc_eq_drop]

/-- Helper: mapGet and size after updateConversation on a present
(non-empty) id. -/
theorem mapGet_update_present (store : List ConversationContext) (cid : String)
    (c : ConversationContext) (m : Shared.ChatMessage) (fid : String) (now : Nat)
    (hne : cid.isEmpty = false) (hc : mapGet store cid = some c) :
    mapGet (updateConversation store cid m fid now) cid =
      some { c with
        messages := (c.messages ++ [m]).drop
          ((c.messages ++ [m]).length - maxMessagesPerConversation),
        lastActivity := now } ∧
    (updateConversation store cid m fid now).length = store.length := by
  have hcid : c.id = cid := (mapGet_some _ _ _ hc).2
  rw [updateConversation_present_eq store cid c m fid now hne hc]
  have hself : mapGet (mapSet store { c with lastActivity := now }) c.id =
      some { c with lastActivity := now } :=
    mapGet_mapSet_self store { c with lastActivity := now }
  constructor
  · rw [← hcid]
    exact mapGet_mapSet_self _ _
  · rw [length_mapSet_present _ _ (by rw [show ({ c with
        messages := (c.messages ++ [m]).drop
          ((c.messages ++ [m]).length - maxMessagesPerConversation),
        lastActivity := now } : ConversationContext).id = c.id from rfl, hself]; rfl),
      length_mapSet_present _ _ (by rw [show ({ c with lastActivity := now } :
        ConversationContext).id = c.id from rfl, hcid, hc]; rfl)]

/-- Helper: updateConversation on an absent (non-empty) id in a store
below the ceiling creates the conversation under that id and appends
the message. -/
theorem updateConversation_absent_eq (store : List ConversationContext) (cid : String)
    (m : Shared.ChatMessage) (fid : String) (now : Nat)
    (hne : cid.isEmpty = false) (hnone : mapGet store cid = none)
    (hroom : store.length < maxConversations) :
    updateConversation store cid m fid now =
      mapSet (mapSet store { id := cid, messages := [], createdAt := now, lastActivity := now })
        { id := cid, messages := [m], createdAt := now, lastActivity := now } := by
  have hne2 : ¬ cid.isEmpty = true := by rw [hne]; exact Bool.false_ne_true
  have hlen : (mapSet store
      { id := cid, messages := [], createdAt := now, lastActivity := now }).length =
      store.length + 1 := by
    rw [mapSet_absent_append _ _ hnone]
    simp
  have hcond : ¬ ((mapSet store
      { id := cid, messages := [], createdAt := now, lastActivity := now }).length >
      maxConversations) := by
    rw [hlen]
    simp only [maxConversations] at hroom ⊢
    omega
  have hself : mapGet (mapSet store
      { id := cid, messages := [], createdAt := now, lastActivity := now }) cid =
      some { id := cid, messages := [], createdAt := now, lastActivity := now } :=
    mapGet_mapSet_self store _
  simp only [updateConversation, getOrCreateConversation, if_neg hne2, hnone, createConv,
    if_neg hcond, hself]
  simp [maxMessagesPerConversation]

/-- Helper: mapGet and size after updateConversation on an absent
(non-empty) id in a store below the ceiling. -/
theorem mapGet_update_absent (store : List ConversationContext) (cid : String)
    (m : Shared.ChatMessage) (fid : String) (now : Nat)
    (hne : cid.isEmpty = false) (hnone : mapGet store cid = none)
    (hroom : store.length < maxConversations) :
    mapGet (updateConversation store cid m fid now) cid =
      some { id := cid, messages := [m], createdAt := now, lastActivity := now } ∧
    (updateConversation store cid m fid now).length = store.length + 1 := by
  rw [updateConversation_absent_eq store cid m fid now hne hnone hroom]
  have hself : mapGet (mapSet store
      { id := cid, messages := [], createdAt := now, lastActivity := now }) cid =
      some { id := cid, messages := [], createdAt := now, lastActivity := now } :=
    mapGet_mapSet_self store _
  constructor
  · exact mapGet_mapSet_self _ _
  · have hsome : (mapGet (mapSet store
        ⟨cid, [], now, now⟩) (⟨cid, [m], now, now⟩ : ConversationContext).id).isSome := by
      rw [show (⟨cid, [m], now, now⟩ : ConversationContext).id = cid from rfl, hself]
      rfl
    rw [length_mapSet_present _ _ hsome, mapSet_absent_append _ _ hnone]
    simp

end Conversation

namespace Conversation

/-- Helper: bulk append onto a present conversation yields the capped
concatenation of its history with the appended messages. -/
theorem addMessages_present (cid : String) (fid : String) (now : Nat)
    (hne : cid.isEmpty = false) :
    ∀ (msgs : List Shared.ChatMessage) (store : List ConversationContext)
      (c : ConversationContext),
      mapGet store cid = some c →
      c.messages.length ≤ maxMessagesPerConversation →
      (mapGet (addMessages store cid msgs fid now) cid).map (fun conv => conv.messages) =
        some ((c.messages ++ msgs).drop
          ((c.messages ++ msgs).length - maxMessagesPerConversation)) := by
  intro msgs
  induction msgs with
  | nil =>
      intro store c hc hlen
      simp only [addMessages, List.foldl_nil, hc, Option.map_some']
      rw [List.append_nil, Nat.sub_eq_zero_of_le hlen, List.drop_zero]
  | cons m rest ih =>
      intro store c hc hlen
      have hstep := mapGet_update_present store cid c m fid now hne hc
      have hlen2 : ({ c with
          messages := (c.messages ++ [m]).drop
            ((c.messages ++ [m]).length - maxMessagesPerConversation),
          lastActivity := now } : ConversationContext).messages.length ≤
          maxMessagesPerConversation := by
        simp only [List.length_drop, maxMessagesPerConversation]
        omega
      have hrec := ih (updateConversation store cid m fid now) _ hstep.1 hlen2
      simp only [addMessages, List.foldl_cons] at hrec ⊢
      rw [hrec]
      congr 1
      rw [drop_cap_append, List.append_assoc, List.singleton_append]

/-- Helper: the cap invariant survives updateConversation. -/
theorem storeInv_update (store : List ConversationContext) (cid : String)
    (m : Shared.ChatMessage) (fid : String) (now : Nat) (hinv : storeInv store) :
    storeInv (updateConversation store cid m fid now) := by
  intro x hx
  rcases mem_updateConversation store cid m fid now x hx with h | h
  · rcases mem_getOrCreate _ _ _ _ _ h with ⟨c, hc, he⟩ | he
    · rw [he]; exact hinv c hc
    · simp [he, maxMessagesPerConversation]
  · exact h

/-- Helper: entries after a read come from the store with a copied
history. -/
theorem mem_getConversation (store : List ConversationContext) (cid : String) (now : Nat)
    (x : ConversationContext) (h : x ∈ (getConversation store cid now).2) :
    ∃ c ∈ store, x.messages = c.messages := by
  unfold getConversation at h
  cases hm : mapGet store cid with
  | some conversation =>
      rw [hm] at h
      dsimp only at h
      rcases mem_mapSet _ _ _ h with h | rfl
      · exact ⟨x, h, rfl⟩
      · exact ⟨conversation, (mapGet_some _ _ _ hm).1, rfl⟩
  | none =>
      rw [hm] at h
      exact ⟨x, h, rfl⟩

/-- C3: every conversation in the store holds at most
maxMessagesPerConversation = 50 messages after every store operation
(append, bulk append, get-or-create, read, delete, sweep), and bulk
appending at least 50 messages onto a single conversation leaves
exactly the 50 most recently appended messages, in insertion order
(oldest truncated first). -/
theorem conversation_message_cap :
    (∀ store cid m fid now, storeInv store →
      storeInv (updateConversation store cid m fid now)) ∧
    (∀ store cid msgs fid now, storeInv store →
      storeInv (addMessages store cid msgs fid now)) ∧
    (∀ store cid fid now, storeInv store →
      storeInv (getOrCreateConversation store cid fid now).2) ∧
    (∀ store cid now, storeInv store →
      storeInv (getConversation store cid now).2) ∧
    (∀ store cid, storeInv store → storeInv (deleteConversation store cid).2) ∧
    (∀ store now, storeInv store → storeInv (cleanupOldConversations store now)) ∧
    (∀ store cid msgs fid now, cid.isEmpty = false →
      store.length < maxConversations →
      maxMessagesPerConversation ≤ msgs.length →
      (mapGet (addMessages store cid msgs fid now) cid).map (fun conv => conv.messages) =
        some (msgs.drop (msgs.length - maxMessagesPerConversation))) := by
  refine ⟨storeInv_update, ?_, ?_, ?_, ?_, ?_, ?_⟩
  · intro store cid msgs fid now hinv
    induction msgs generalizing store with
    | nil => exact hinv
    | cons m rest ih =>
        simp only [addMessages, List.foldl_cons] at ih ⊢
        exact ih _ (storeInv_update store cid m fid now hinv)
  · intro store cid fid now hinv x hx
    rcases mem_getOrCreate _ _ _ _ _ hx with ⟨c, hc, he⟩ | he
    · rw [he]; exact hinv c hc
    · simp [he, maxMessagesPerConversation]
  · intro store cid now hinv x hx
    obtain ⟨c, hc, he⟩ := mem_getConversation _ _ _ _ hx
    rw [he]; exact hinv c hc
  · intro store cid hinv x hx
    exact hinv x (List.mem_filter.mp hx).1
  · intro store now hinv x hx
    exact hinv x (mem_cleanup _ _ _ hx)
  · intro store cid msgs fid now hne hroom hlen
    cases msgs with
    | nil => simp [maxMessagesPerConversation] at hlen
    | cons m rest =>
        cases hc : mapGet store cid with
        | some c =>
            have h1 := mapGet_update_present store cid c m fid now hne hc
            have h2 := addMessages_present cid fid now hne rest
              (updateConversation store cid m fid now) _ h1.1
              (by simp only [List.length_drop, maxMessagesPerConversation]; omega)
            simp only [addMessages, List.foldl_cons] at h2 ⊢
            rw [h2]
            congr 1
            rw [drop_cap_append, List.append_assoc, List.singleton_append]
            have hsum : (c.messages ++ (m :: rest)).length - maxMessagesPerConversation =
                c.messages.length + ((m :: rest).length - maxMessagesPerConversation) := by
              simp only [List.length_append]
              omega
            rw [hsum, List.drop_append]
        | none =>
            have h1 := mapGet_update_absent store cid m fid now hne hc hroom
            have h2 := addMessages_present cid fid now hne rest
              (updateConversation store cid m fid now) _ h1.1
              (by simp [maxMessagesPerConversation])
            simp only [addMessages, List.foldl_cons] at h2 ⊢
            rw [h2]
            simp only [List.singleton_append]

end Conversation

namespace Conversation

/-- Witness for C3: appending 51 concrete messages to one conversation
in an empty store leaves exactly the most recent 50 in order. -/
theorem conversation_message_cap_witness :
    ("c1" : String).isEmpty = false ∧
    ([] : List ConversationContext).length < maxConversations ∧
    maxMessagesPerConversation ≤
      ((List.range 51).map (fun i =>
        (⟨"", "user", "", i, none, none⟩ : Shared.ChatMessage))).length ∧
    (mapGet (addMessages [] "c1"
        ((List.range 51).map (fun i =>
          (⟨"", "user", "", i, none, none⟩ : Shared.ChatMessage))) "fresh" 9) "c1").map
        (fun conv => conv.messages) =
      some (((List.range 51).map (fun i =>
        (⟨"", "user", "", i, none, none⟩ : Shared.ChatMessage))).drop 1) := by
  have h := conversation_message_cap.2.2.2.2.2.2 [] "c1"
    ((List.range 51).map (fun i =>
      (⟨"", "user", "", i, none, none⟩ : Shared.ChatMessage))) "fresh" 9
    rfl (by decide) (by simp [maxMessagesPerConversation])
  refine ⟨rfl, by decide, by simp [maxMessagesPerConversation], ?_⟩
  rw [h]
  simp [maxMessagesPerConversation]

/-- C9: getConversation refreshes the read conversation's lastActivity
to the read time as a side effect; consequently a conversation that is
only read counts as recently active: it survives the age sweep run
within the age window (with the store at or below the ceiling so no
capacity pressure applies), it is counted by the stats active window,
and it participates in the lastActivity-descending listConversations
ordering with its refreshed time. -/
theorem read_refreshes_activity :
    ∀ (store : List ConversationContext) (id : String) (now nowq : Nat)
      (c : ConversationContext),
      mapGet store id = some c →
      (getConversation store id now).1 = some { c with lastActivity := now } ∧
      mapGet (getConversation store id now).2 id = some { c with lastActivity := now } ∧
      (store.length ≤ maxConversations → nowq - now ≤ maxAgeMs →
        { c with lastActivity := now } ∈
          cleanupOldConversations (getConversation store id now).2 nowq) ∧
      (nowq - now < activeThresholdMs →
        1 ≤ (getStats (getConversation store id now).2 nowq).activeConversations) ∧
      (listConversations (getConversation store id now).2).Perm
        (getConversation store id now).2 ∧
      List.Pairwise (fun a b => b.lastActivity ≤ a.lastActivity)
        (listConversations (getConversation store id now).2) ∧
      { c with lastActivity := now } ∈ listConversations (getConversation store id now).2 := by
  intro store id now nowq c hc
  have hcid : c.id = id := (mapGet_some _ _ _ hc).2
  have hget : getConversation store id now =
      (some { c with lastActivity := now }, mapSet store { c with lastActivity := now }) := by
    simp only [getConversation, hc]
  rw [hget]
  have hmem : ({ c with lastActivity := now } : ConversationContext) ∈
      mapSet store { c with lastActivity := now } :=
    (mapGet_some _ _ _ (mapGet_mapSet_self store { c with lastActivity := now })).1
  have hsize : (mapSet store { c with lastActivity := now }).length = store.length :=
    length_mapSet_present store { c with lastActivity := now }
      (by rw [show ({ c with lastActivity := now } : ConversationContext).id = c.id from rfl,
        hcid, hc]; rfl)
  haveI htot : IsTotal ConversationContext (fun a b => b.lastActivity ≤ a.lastActivity) :=
    ⟨fun a b => Nat.le_total b.lastActivity a.lastActivity⟩
  haveI htr : IsTrans ConversationContext (fun a b => b.lastActivity ≤ a.lastActivity) :=
    ⟨fun _ _ _ hab hbc => Nat.le_trans hbc hab⟩
  refine ⟨rfl, ?_, ?_, ?_, ?_, ?_, ?_⟩
  · rw [← hcid]
    exact mapGet_mapSet_self _ _
  · intro hroom hage
    have hfil : (List.filter (fun conv => !(decide (maxAgeMs < nowq - conv.lastActivity)))
        (mapSet store { c with lastActivity := now })).length ≤ maxConversations := by
      calc (List.filter (fun conv => !(decide (maxAgeMs < nowq - conv.lastActivity)))
          (mapSet store { c with lastActivity := now })).length
          ≤ (mapSet store { c with lastActivity := now }).length :=
            List.length_filter_le _ _
        _ = store.length := hsize
        _ ≤ maxConversations := hroom
    have hcond : ¬ ((List.filter (fun conv => !(decide (maxAgeMs < nowq - conv.lastActivity)))
        (mapSet store { c with lastActivity := now })).length > maxConversations) := by
      omega
    simp only [cleanupOldConversations]
    rw [if_neg hcond]
    refine List.mem_filter.mpr ⟨hmem, ?_⟩
    simp only [Bool.not_eq_eq_eq_not, Bool.not_true, decide_eq_false_iff_not]
    omega
  · intro hact
    have hmemf : ({ c with lastActivity := now } : ConversationContext) ∈
        List.filter (fun conv => decide (nowq - conv.lastActivity < activeThresholdMs))
          (mapSet store { c with lastActivity := now }) :=
      List.mem_filter.mpr ⟨hmem, by simpa using hact⟩
    exact List.length_pos.mpr (List.ne_nil_of_mem hmemf)
  · exact List.perm_insertionSort _ _
  · exact List.sorted_insertionSort _ _
  · exact ((List.perm_insertionSort _ _).mem_iff).mpr hmem

/-- Witness for C9 on a concrete one-conversation store: the read at
time 10 refreshes lastActivity, and at time 12 the conversation
survives the sweep and counts as active. -/
theorem read_refreshes_activity_witness :
    (getConversation [⟨"a", [], 0, 5⟩] "a" 10).1 = some ⟨"a", [], 0, 10⟩ ∧
    mapGet (getConversation [⟨"a", [], 0, 5⟩] "a" 10).2 "a" = some ⟨"a", [], 0, 10⟩ ∧
    (⟨"a", [], 0, 10⟩ : ConversationContext) ∈
      cleanupOldConversations (getConversation [⟨"a", [], 0, 5⟩] "a" 10).2 12 ∧
    1 ≤ (getStats (getConversation [⟨"a", [], 0, 5⟩] "a" 10).2 12).activeConversations := by
  have h := read_refreshes_activity [⟨"a", [], 0, 5⟩] "a" 10 12 ⟨"a", [], 0, 5⟩ rfl
  exact ⟨h.1, h.2.1, h.2.2.1 (by decide) (by decide), h.2.2.2.1 (by decide)⟩

end Conversation

namespace Conversation

/-- C4: the sweep first removes every conversation strictly older than
the age threshold; when the survivors still exceed the ceiling it
removes exactly the least-recently-active ones until the count equals
the ceiling; and (for stores with unique ids and pairwise-distinct
lastActivity values) no conversation is ever evicted while a less
recently active one remains. -/
theorem eviction_ordering :
    ∀ (store : List ConversationContext) (now : Nat),
      (store.map (fun c => c.id)).Nodup →
      store.Pairwise (fun a b => a.lastActivity ≠ b.lastActivity) →
      (∀ c ∈ store, maxAgeMs < now - c.lastActivity →
        c ∉ cleanupOldConversations store now) ∧
      (∀ a ∈ store, a ∉ cleanupOldConversations store now →
        ∀ b ∈ cleanupOldConversations store now, a.lastActivity < b.lastActivity) ∧
      ((store.filter (fun conv => !(decide (maxAgeMs < now - conv.lastActivity)))).length >
          maxConversations →
        (cleanupOldConversations store now).length = maxConversations) := by
  intro store now hnodup hdist
  haveI : IsTotal ConversationContext (fun a b => a.lastActivity ≤ b.lastActivity) :=
    ⟨fun a b => Nat.le_total a.lastActivity b.lastActivity⟩
  haveI : IsTrans ConversationContext (fun a b => a.lastActivity ≤ b.lastActivity) :=
    ⟨fun _ _ _ hab hbc => Nat.le_trans hab hbc⟩
  set pAge : ConversationContext → Bool :=
    fun conv => !(decide (maxAgeMs < now - conv.lastActivity)) with hpAge
  set afterAge : List ConversationContext := store.filter pAge with hafterAge
  set sorted : List ConversationContext :=
    List.insertionSort (fun a b => a.lastActivity ≤ b.lastActivity) afterAge with hsorteddef
  set toDelete : List ConversationContext :=
    sorted.take (sorted.length - maxConversations) with htoDelete
  set pDel : ConversationContext → Bool :=
    fun conv => !(toDelete.any (fun d => d.id == conv.id)) with hpDel
  have hcleanup : cleanupOldConversations store now =
      if afterAge.length > maxConversations then afterAge.filter pDel else afterAge := by
    rw [hpDel, htoDelete, hsorteddef, hafterAge, hpAge]
    rfl
  have hperm : sorted.Perm afterAge := by
    rw [hsorteddef]; exact List.perm_insertionSort _ _
  have hsortedP : List.Pairwise (fun a b => a.lastActivity ≤ b.lastActivity) sorted := by
    rw [hsorteddef]; exact List.sorted_insertionSort _ _
  have hsubA : afterAge.Sublist store := by
    rw [hafterAge]; exact List.filter_sublist store
  have hnodupA : (afterAge.map (fun c => c.id)).Nodup := hnodup.sublist (hsubA.map _)
  have hnodupS : (sorted.map (fun c => c.id)).Nodup := ((hperm.map _).nodup_iff).mpr hnodupA
  have hAge_of_mem : ∀ x ∈ afterAge, ¬ (maxAgeMs < now - x.lastActivity) := by
    intro x hx
    rw [hafterAge] at hx
    have h2 := (List.mem_filter.mp hx).2
    rw [hpAge] at h2
    simpa using h2
  have hres_sub : ∀ x ∈ cleanupOldConversations store now, x ∈ afterAge := by
    intro x hx
    rw [hcleanup] at hx
    split at hx
    · exact (List.mem_filter.mp hx).1
    · exact hx
  refine ⟨?_, ?_, ?_⟩
  · intro c hc hexp hmem
    exact absurd hexp (hAge_of_mem c (hres_sub c hmem))
  · intro a ha hnot b hb
    have hbA : b ∈ afterAge := hres_sub b hb
    by_cases haA : a ∈ afterAge
    · have hbig : afterAge.length > maxConversations := by
        by_contra hn
        rw [hcleanup, if_neg hn] at hnot
        exact hnot haA
      rw [hcleanup, if_pos hbig] at hnot hb
      have hfail : ¬ (pDel a = true) := fun hp => hnot (List.mem_filter.mpr ⟨haA, hp⟩)
      have hany : toDelete.any (fun d => d.id == a.id) = true := by
        rw [hpDel] at hfail
        simpa using hfail
      obtain ⟨d, hdT, hdid⟩ := List.any_eq_true.mp hany
      have hdS : d ∈ sorted := List.mem_of_mem_take hdT
      have haS : a ∈ sorted := hperm.mem_iff.mpr haA
      have hda : d = a := List.inj_on_of_nodup_map hnodupS hdS haS (eq_of_beq hdid)
      rw [hda] at hdT
      have hbP : pDel b = true := (List.mem_filter.mp hb).2
      have hbT : b ∉ toDelete := by
        intro hbTmem
        simp only [hpDel] at hbP
        have : toDelete.any (fun d => d.id == b.id) = true :=
          List.any_eq_true.mpr ⟨b, hbTmem, by simp⟩
        rw [this] at hbP
        simp at hbP
      have hbS : b ∈ sorted := hperm.mem_iff.mpr hbA
      have hbD : b ∈ sorted.drop (sorted.length - maxConversations) := by
        rcases List.mem_append.mp
            ((List.take_append_drop (sorted.length - maxConversations) sorted) ▸ hbS) with
          h | h
        · rw [← htoDelete] at h
          exact absurd h hbT
        · exact h
      have hcross : a.lastActivity ≤ b.lastActivity := by
        have hP := hsortedP
        rw [← List.take_append_drop (sorted.length - maxConversations) sorted] at hP
        refine (List.pairwise_append.mp hP).2.2 a ?_ b hbD
        rw [← htoDelete]
        exact hdT
      have hneab : a ≠ b := fun he => hnot (he ▸ hb)
      have hmemb : b ∈ store := hsubA.subset hbA
      have hdistab : a.lastActivity ≠ b.lastActivity :=
        hdist.forall (fun x y h => h.symm) ha hmemb hneab
      omega
    · have hage : ¬ (pAge a = true) := fun hp => haA (by
        rw [hafterAge]
        exact List.mem_filter.mpr ⟨ha, hp⟩)
      have hexp2 : maxAgeMs + a.lastActivity < now := by
        rw [hpAge] at hage
        simpa using hage
      have hkeep := hAge_of_mem b hbA
      omega
  · intro hbig
    rw [hcleanup, if_pos hbig]
    have hlenperm : (afterAge.filter pDel).length = (sorted.filter pDel).length :=
      ((hperm.filter pDel).length_eq).symm
    have hfilter_take : toDelete.filter pDel = [] := by
      rw [List.filter_eq_nil_iff]
      intro x hx
      rw [hpDel]
      have : toDelete.any (fun d => d.id == x.id) = true :=
        List.any_eq_true.mpr ⟨x, hx, by simp⟩
      simp [this]
    have hnodupSort : sorted.Nodup := hnodupS.of_map
    have hdisj : (sorted.take (sorted.length - maxConversations)).Disjoint
        (sorted.drop (sorted.length - maxConversations)) := by
      have h := hnodupSort
      rw [← List.take_append_drop (sorted.length - maxConversations) sorted] at h
      exact (List.nodup_append.mp h).2.2
    have hfilter_drop : (sorted.drop (sorted.length - maxConversations)).filter pDel =
        sorted.drop (sorted.length - maxConversations) := by
      rw [List.filter_eq_self]
      intro x hx
      rw [hpDel]
      have hany : toDelete.any (fun d => d.id == x.id) = false := by
        rw [List.any_eq_false]
        intro d hdT hidE
        have hdS : d ∈ sorted := List.mem_of_mem_take hdT
        have hxS : x ∈ sorted := List.mem_of_mem_drop hx
        have hdx : d = x := List.inj_on_of_nodup_map hnodupS hdS hxS (eq_of_beq hidE)
        rw [hdx] at hdT
        exact hdisj hdT hx
      simp [hany]
    rw [hlenperm]
    conv_lhs => rw [← List.take_append_drop (sorted.length - maxConversations) sorted,
      List.filter_append]
    rw [← htoDelete, hfilter_take, hfilter_drop]
    have hlen : sorted.length = afterAge.length := hperm.length_eq
    simp only [List.nil_append, List.length_drop]
    omega

end Conversation

namespace Conversation

/-- Helper: ordered insertion below a maximal last element stays left
of it. -/
theorem orderedInsert_append_max {α : Type} (r : α → α → Prop) [DecidableRel r] (a : α) :
    ∀ (m : List α) (y : α), r y a →
      List.orderedInsert r y (m ++ [a]) = List.orderedInsert r y m ++ [a] := by
  intro m
  induction m with
  | nil =>
      intro y hy
      simp only [List.nil_append, List.orderedInsert]
      rw [if_pos hy]
      rfl
  | cons c m ih =>
      intro y hy
      simp only [List.cons_append, List.orderedInsert]
      by_cases hyc : r y c
      · rw [if_pos hyc, if_pos hyc]
        simp
      · rw [if_neg hyc, if_neg hyc]
        simp only [List.append_eq, List.cons_append]
        rw [ih y hy]

/-- Helper: insertion sort keeps a final maximal element last (the sort
is stable, so a last element at least as large as every other stays at
the very end). -/
theorem insertionSort_append_max {α : Type} (r : α → α → Prop) [DecidableRel r] (a : α) :
    ∀ (l : List α), (∀ x ∈ l, r x a) →
      List.insertionSort r (l ++ [a]) = List.insertionSort r l ++ [a] := by
  intro l
  induction l with
  | nil =>
      intro h
      simp [List.insertionSort]
  | cons y l ih =>
      intro h
      simp only [List.cons_append, List.insertionSort, List.append_eq]
      rw [ih (fun x hx => h x (List.mem_cons_of_mem y hx)),
        orderedInsert_append_max r a _ y (h y (List.mem_cons_self y l))]

/-- Helper: a conversation appended last with the maximal lastActivity
and a fresh id survives the sweep run at its own lastActivity time. -/
theorem last_max_survives_cleanup (store : List ConversationContext)
    (conv : ConversationContext) (now : Nat)
    (hids : ∀ c ∈ store, c.id ≠ conv.id)
    (htime : ∀ c ∈ store, c.lastActivity ≤ now)
    (hnow : conv.lastActivity = now) :
    conv ∈ cleanupOldConversations (store ++ [conv]) now := by
  have hconvAge : (fun c => !(decide (maxAgeMs < now - c.lastActivity))) conv = true := by
    simp [hnow]
  have hAfter : (store ++ [conv]).filter
      (fun c => !(decide (maxAgeMs < now - c.lastActivity))) =
      store.filter (fun c => !(decide (maxAgeMs < now - c.lastActivity))) ++ [conv] := by
    rw [List.filter_append]
    simp [hconvAge]
  simp only [cleanupOldConversations]
  rw [hAfter]
  set F : List ConversationContext :=
    store.filter (fun c => !(decide (maxAgeMs < now - c.lastActivity))) with hF
  split
  · have hsortApp : List.insertionSort (fun a b => a.lastActivity ≤ b.lastActivity)
        (F ++ [conv]) =
        List.insertionSort (fun a b => a.lastActivity ≤ b.lastActivity) F ++ [conv] := by
      apply insertionSort_append_max
      intro x hx
      have hxs : x ∈ store := (List.mem_filter.mp (hF ▸ hx)).1
      rw [hnow]
      exact htime x hxs
    rw [hsortApp]
    refine List.mem_filter.mpr ⟨List.mem_append_right _ (by simp), ?_⟩
    have hk : (List.insertionSort (fun a b => a.lastActivity ≤ b.lastActivity) F ++
        [conv]).length - maxConversations ≤
        (List.insertionSort (fun a b => a.lastActivity ≤ b.lastActivity) F).length := by
      have h100 : maxConversations = 100 := rfl
      simp only [List.length_append, List.length_singleton]
      omega
    rw [List.take_append_of_le_length hk]
    have hany : ((List.insertionSort (fun a b => a.lastActivity ≤ b.lastActivity) F).take
        ((List.insertionSort (fun a b => a.lastActivity ≤ b.lastActivity) F ++
          [conv]).length - maxConversations)).any (fun d => d.id == conv.id) = false := by
      rw [List.any_eq_false]
      intro d hd hdeq
      have hdF : d ∈ F :=
        ((List.perm_insertionSort _ _).mem_iff).mp (List.mem_of_mem_take hd)
      have hds : d ∈ store := (List.mem_filter.mp (hF ▸ hdF)).1
      exact hids d hds (eq_of_beq hdeq)
    simp only [hany]
    rfl
  · exact List.mem_append_right _ (by simp)

end Conversation

namespace Conversation

/-- Counterexample to C10 as stated: the empty string is a
conversationId not present in the empty store, yet updateConversation
stores the message under a freshly generated id (JavaScript falsiness
of the empty string), so reading back the supplied id yields nothing. -/
theorem update_unknown_id_counterexample :
    mapGet (updateConversation [] ""
      ⟨"m1", "user", "hi", 3, none, none⟩ "gen-id" 3) "" = none ∧
    mapGet (updateConversation [] ""
      ⟨"m1", "user", "hi", 3, none, none⟩ "gen-id" 3) "gen-id" =
      some ⟨"gen-id", [⟨"m1", "user", "hi", 3, none, none⟩], 3, 3⟩ := by
  constructor <;> rfl

/-- C10 (amended): appending via updateConversation with a non-empty
conversationId absent from the store does not fail and does not use the
generated fresh id: it creates the conversation under exactly the
supplied id and appends the message, so the id afterwards resolves to a
conversation holding that message (assuming stored activity timestamps
do not exceed the current time, so the on-create sweep cannot evict the
fresh conversation). -/
theorem update_creates_supplied_id :
    ∀ (store : List ConversationContext) (cid : String) (m : Shared.ChatMessage)
      (fid : String) (now : Nat),
      cid.isEmpty = false →
      mapGet store cid = none →
      (∀ c ∈ store, c.lastActivity ≤ now) →
      (mapGet (updateConversation store cid m fid now) cid).map
        (fun conv => conv.messages) = some [m] := by
  intro store cid m fid now hne hnone htime
  have hne2 : ¬ cid.isEmpty = true := by rw [hne]; exact Bool.false_ne_true
  have hids : ∀ c ∈ store, c.id ≠ cid := mapGet_eq_none store cid hnone
  have happend : mapSet store ⟨cid, [], now, now⟩ = store ++ [⟨cid, [], now, now⟩] :=
    mapSet_absent_append store ⟨cid, [], now, now⟩ hnone
  have hstore₁get : mapGet (createConv store cid now).2 cid =
      some ⟨cid, [], now, now⟩ := by
    have huniq : ∀ (st : List ConversationContext),
        (⟨cid, [], now, now⟩ : ConversationContext) ∈ st →
        (∀ x ∈ st, x ∈ store ∨ x = ⟨cid, [], now, now⟩) →
        mapGet st cid = some ⟨cid, [], now, now⟩ := by
      intro st hmem hsub
      exact mapGet_of_mem_unique st ⟨cid, [], now, now⟩ hmem (by
        intro d hd hdid
        rcases hsub d hd with h | h
        · exact absurd hdid (hids d h)
        · exact h)
    simp only [createConv]
    split
    · refine huniq _ ?_ (fun x hx => mem_mapSet _ _ _ (mem_cleanup _ _ _ hx))
      rw [happend]
      exact last_max_survives_cleanup store ⟨cid, [], now, now⟩ now hids htime rfl
    · refine huniq _ ?_ (fun x hx => mem_mapSet _ _ _ hx)
      exact (mapGet_some _ _ _ (mapGet_mapSet_self store ⟨cid, [], now, now⟩)).1
  simp only [updateConversation, getOrCreateConversation, if_neg hne2, hnone]
  have hfst : (createConv store cid now).1 = (⟨cid, [], now, now⟩ : ConversationContext) :=
    rfl
  rw [hfst, show (⟨cid, [], now, now⟩ : ConversationContext).id = cid from rfl,
    hstore₁get]
  have hfin : mapGet (mapSet (createConv store cid now).2
      (⟨cid, [m], now, now⟩ : ConversationContext)) cid = some ⟨cid, [m], now, now⟩ :=
    mapGet_mapSet_self _ _
  show (mapGet (mapSet (createConv store cid now).2 ⟨cid, [m], now, now⟩) cid).map
    (fun conv => conv.messages) = some [m]
  rw [hfin]
  rfl

/-- Witness for the amended C10 on a concrete store. -/
theorem update_creates_supplied_id_witness :
    (mapGet (updateConversation [⟨"a", [], 0, 5⟩] "b"
        ⟨"m1", "user", "hi", 9, none, none⟩ "fresh" 9) "b").map
      (fun conv => conv.messages) =
      some [⟨"m1", "user", "hi", 9, none, none⟩] :=
  update_creates_supplied_id [⟨"a", [], 0, 5⟩] "b"
    ⟨"m1", "user", "hi", 9, none, none⟩ "fresh" 9 rfl rfl (by decide)

/-- Witness for C4: a concrete two-conversation store with unique ids
and distinct activity times where the sweep removes exactly the
age-expired conversation. -/
theorem eviction_ordering_witness :
    (([⟨"old", [], 0, 0⟩, ⟨"new", [], 0, 86400001⟩] : List ConversationContext).map
        (fun c => c.id)).Nodup ∧
    ([⟨"old", [], 0, 0⟩, ⟨"new", [], 0, 86400001⟩] : List ConversationContext).Pairwise
      (fun a b => a.lastActivity ≠ b.lastActivity) ∧
    (⟨"old", [], 0, 0⟩ : ConversationContext) ∉
      cleanupOldConversations [⟨"old", [], 0, 0⟩, ⟨"new", [], 0, 86400001⟩] 86400001 :=
  ⟨by decide, by decide,
   (eviction_ordering [⟨"old", [], 0, 0⟩, ⟨"new", [], 0, 86400001⟩] 86400001
      (by decide) (by decide)).1 ⟨"old", [], 0, 0⟩ (by decide) (by decide)⟩

end Conversation
